import Mathlib

/-!
Shallow embedding of `markovpy/ensemble.py` (the Goodman & Weare affine-invariant
ensemble MCMC sampler, class `EnsembleSampler`), together with theorems settling
the specification claims about it.

Modelling conventions:
* Machine doubles that can hold log-posteriors are modelled by the type `Markovpy.F`
  with constructors for a finite value (an exact rational), `+inf`, `-inf` and `NaN`,
  and with IEEE-754 addition/subtraction/comparison semantics for those cases
  (`NaN` propagates; `inf - inf = NaN`; any comparison against `NaN` is false).
* Walker positions are exact rationals (the claims under study do not depend on
  rounding of position arithmetic).
* `numpy.log` is not a rational function, so the machine log is a parameter of the
  sampler state (field `flog`); theorems that need facts about it assume exactly
  the sign behaviour of `numpy.log` (finite on positives, `-inf` at zero, never
  `NaN` on non-negatives), and concrete instances use `Markovpy.logLike`, which has
  that behaviour.
* The owned generator `self._random` (`numpy.random.mtrand.RandomState`) is
  modelled as counter-indexed deterministic streams: a stream of uniform draws in
  `[0,1)`, a stream of integer draws, and a stream of standard-normal draws.
  `get_state`/`set_state` correspond to copying the `Rng` value.
* The in-memory storage branch of `sample` is embedded (`outfile is None`), which
  is the branch the storage claims address.  `self._chain` (numpy shape
  `(nwalkers, npars, iterations)`) is a list of per-iteration snapshots, each a
  function `walker → dimension → value`; `self._lnprobability` (numpy shape
  `(nwalkers, columns)`) is a list of per-column functions `walker → value`.
* `if lnprob == None` (line 326) is modelled as an `Option` test, the behaviour of
  the 2011-era numpy this code targets (the spec itself flags the comparison).
* `if any(accept): lnprob[accept] = ...` is embedded as the per-walker conditional
  update, which has the same effect whether or not any walker is accepted.
-/

namespace Markovpy

/-- Model of a machine double as used for log-posterior arithmetic: a finite
rational, `+inf`, `-inf`, or `NaN`. -/
inductive F where
  | fin : ℚ → F
  | pinf : F
  | ninf : F
  | nan : F
deriving DecidableEq

/-- IEEE-754 negation. -/
def F.neg : F → F
  | F.fin q => F.fin (-q)
  | F.pinf => F.ninf
  | F.ninf => F.pinf
  | F.nan => F.nan

/-- IEEE-754 addition: `NaN` propagates and `(+inf) + (-inf) = NaN`. -/
def F.add : F → F → F
  | F.fin a, F.fin b => F.fin (a + b)
  | F.fin _, F.pinf => F.pinf
  | F.fin _, F.ninf => F.ninf
  | F.fin _, F.nan => F.nan
  | F.pinf, F.fin _ => F.pinf
  | F.pinf, F.pinf => F.pinf
  | F.pinf, F.ninf => F.nan
  | F.pinf, F.nan => F.nan
  | F.ninf, F.fin _ => F.ninf
  | F.ninf, F.pinf => F.nan
  | F.ninf, F.ninf => F.ninf
  | F.ninf, F.nan => F.nan
  | F.nan, _ => F.nan

/-- IEEE-754 subtraction, `x - y = x + (-y)`. -/
def F.sub (x y : F) : F := F.add x (F.neg y)

/-- IEEE-754 multiplication of a finite scalar with a value:
`0 * (±inf) = NaN`, `NaN` propagates. -/
def F.mulQ (c : ℚ) : F → F
  | F.fin q => F.fin (c * q)
  | F.pinf => if 0 < c then F.pinf else if c < 0 then F.ninf else F.nan
  | F.ninf => if 0 < c then F.ninf else if c < 0 then F.pinf else F.nan
  | F.nan => F.nan

/-- IEEE-754 strict greater-than: any comparison involving `NaN` is false. -/
def F.gt : F → F → Bool
  | F.fin a, F.fin b => decide (b < a)
  | F.fin _, F.pinf => false
  | F.fin _, F.ninf => true
  | F.fin _, F.nan => false
  | F.pinf, F.fin _ => true
  | F.pinf, F.pinf => false
  | F.pinf, F.ninf => true
  | F.pinf, F.nan => false
  | F.ninf, _ => false
  | F.nan, _ => false

/-- Non-strict comparison used only for sorting (`numpy.argsort` ascending);
`NaN` is ordered last, matching numpy's sort. -/
def F.leB : F → F → Bool
  | F.nan, F.nan => true
  | F.nan, _ => false
  | _, F.nan => true
  | F.ninf, _ => true
  | F.fin _, F.ninf => false
  | F.pinf, F.ninf => false
  | F.fin a, F.fin b => decide (a ≤ b)
  | F.fin _, F.pinf => true
  | F.pinf, F.fin _ => false
  | F.pinf, F.pinf => true

/-- A concrete stand-in for `numpy.log` with the sign behaviour of the real log:
finite on positive finite inputs, `-inf` at `0`, `NaN` on negative inputs and on
`-inf`, `+inf` at `+inf`.  (The finite values themselves are collapsed to `0`;
the theorems never rely on the numeric value of a finite log.)  Used to
instantiate the sampler's `flog` field in concrete runs. -/
def logLike : F → F
  | F.fin q => if 0 < q then F.fin 0 else if q = 0 then F.ninf else F.nan
  | F.pinf => F.pinf
  | F.ninf => F.nan
  | F.nan => F.nan

/-- Model of the owned generator `self._random`: deterministic draw streams with
cursors.  `useq` yields the `rand` (uniform `[0,1)`) draws, `iseq` the `randint`
draws, `nseq` the `randn` (standard normal) draws. -/
structure Rng where
  useq : ℕ → ℚ
  iseq : ℕ → ℕ
  nseq : ℕ → ℚ
  uc : ℕ
  ic : ℕ
  nc : ℕ

/-- `self._random.rand(n)`: a vector of `n` fresh uniform draws plus the advanced
generator state. -/
def randVec (r : Rng) (n : ℕ) : (ℕ → ℚ) × Rng :=
  (fun i => r.useq (r.uc + i), { r with uc := r.uc + n })

/-- `self._random.randint(high, size=(n,))`: `n` fresh draws in `[0, high)`. -/
def randintVec (r : Rng) (high n : ℕ) : (ℕ → ℕ) × Rng :=
  (fun i => r.iseq (r.ic + i) % high, { r with ic := r.ic + n })

/-- `self._random.randn(n)`: `n` fresh standard-normal draws. -/
def randnVec (r : Rng) (n : ℕ) : (ℕ → ℚ) × Rng :=
  (fun i => r.nseq (r.nc + i), { r with nc := r.nc + n })

/-- The persistent state of an `EnsembleSampler` (the fields touched by the
in-memory sampling path). -/
structure Sampler where
  nwalkers : ℕ
  npars : ℕ
  lnpostfn : (ℕ → ℚ) → F
  a : ℚ
  flog : F → F
  neff : ℚ
  fixedinds : List ℕ
  fixedvals : List ℚ
  chain : List (ℕ → ℕ → ℚ)
  lnprobability : List (ℕ → F)
  iterations : ℕ
  naccepted : ℕ → ℕ

/-- `EnsembleSampler.__init__` followed by `clear_chain` (in-memory branch):
`self._neff = npars`, no fixed parameters, empty chain and counters. -/
def mkSampler (nwalkers npars : ℕ) (lnpostfn : (ℕ → ℚ) → F) (a : ℚ) (flog : F → F) :
    Sampler :=
  { nwalkers := nwalkers
    npars := npars
    lnpostfn := lnpostfn
    a := a
    flog := flog
    neff := (npars : ℚ)
    fixedinds := []
    fixedvals := []
    chain := []
    lnprobability := []
    iterations := 0
    naccepted := fun _ => 0 }

/-- `EnsembleSampler.fix_parameters(inds, vals)`:
stores the pinned indices/values and sets `self._neff = self.npars - len(inds)`. -/
def fix_parameters (S : Sampler) (inds : List ℕ) (vals : List ℚ) : Sampler :=
  { S with
      fixedinds := inds
      fixedvals := vals
      neff := (S.npars : ℚ) - (inds.length : ℚ) }

/-- `EnsembleSampler.ensemble_lnposterior(pos)`: the batched per-walker
evaluation `map(self._lnposteriorfn, [pos[i] ...])`. -/
def ensemble_lnposterior (S : Sampler) (pos : ℕ → ℕ → ℚ) : ℕ → F :=
  fun i => S.lnpostfn (pos i)

/-- The per-call local state of `sample`: the caller's `position0` object, the
local working copy `position` (created by `np.array(position0)` at line 323),
the current `lnprob` vector, and the owned generator. -/
structure StepState where
  position0 : ℕ → ℕ → ℚ
  position : ℕ → ℕ → ℚ
  lnprob : ℕ → F
  rng : Rng

/-- Sequential fancy-index assignment `row[inds] = vals` on one walker row:
later pairs overwrite earlier ones, as in numpy. -/
def writePairs : List (ℕ × ℚ) → (ℕ → ℚ) → ℕ → ℚ
  | [], row => row
  | (e, v) :: rest, row => writePairs rest (fun x => if x = e then v else row x)

/-- The value the last matching pair of `ps` pins dimension `d` to, if any. -/
def lastPinned : List (ℕ × ℚ) → ℕ → Option ℚ
  | [], _ => none
  | (e, v) :: rest, d =>
      match lastPinned rest d with
      | some w => some w
      | none => if d = e then some v else none

/-- Line 361: `rint[rint >= np.arange(self.nwalkers)] += 1` on a single entry —
the draw `r` from `0..nwalkers-2` is incremented when `r ≥ i`. -/
def partnerIdx (i r : ℕ) : ℕ := if i ≤ r then r + 1 else r

/-- The fresh uniform vector for the stretch factors (line 357). -/
def stepU1 (st : StepState) : ℕ → ℚ := fun i => st.rng.useq (st.rng.uc + i)

/-- Line 357: `zz = ((self.a-1.)*self._random.rand(self.nwalkers)+1)**2./self.a`. -/
def stepZZ (S : Sampler) (st : StepState) : ℕ → ℚ :=
  fun i => ((S.a - 1) * stepU1 st i + 1) ^ 2 / S.a

/-- Line 359: the raw draw `self._random.randint(self.nwalkers-1, ...)`. -/
def stepRdraw (S : Sampler) (st : StepState) : ℕ → ℕ :=
  fun i => st.rng.iseq (st.rng.ic + i) % (S.nwalkers - 1)

/-- Lines 359-361: the partner index of each walker after the increment trick. -/
def stepRint (S : Sampler) (st : StepState) : ℕ → ℕ :=
  fun i => partnerIdx i (stepRdraw S st i)

/-- Lines 364-365: `newposition = position[rint] + zz[:,np.newaxis]*(position-position[rint])`,
computed from the pre-step ensemble. -/
def stepRawProp (S : Sampler) (st : StepState) : ℕ → ℕ → ℚ :=
  fun i d =>
    st.position (stepRint S st i) d +
      stepZZ S st i * (st.position i d - st.position (stepRint S st i) d)

/-- Line 366: `newposition[:,self._fixedinds] = self._fixedvals`, applied after
the stretch. -/
def stepNewPos (S : Sampler) (st : StepState) : ℕ → ℕ → ℚ :=
  fun i => writePairs (S.fixedinds.zip S.fixedvals) (stepRawProp S st i)

/-- Line 367: `newlnprob = self.ensemble_lnposterior(newposition)`. -/
def stepNewLnprob (S : Sampler) (st : StepState) : ℕ → F :=
  fun i => ensemble_lnposterior S (stepNewPos S st) i

/-- Line 368: `lnpdiff = (self._neff - 1.) * np.log(zz) + newlnprob - lnprob`. -/
def stepLnpdiff (S : Sampler) (st : StepState) : ℕ → F :=
  fun i =>
    F.sub (F.add (F.mulQ (S.neff - 1) (S.flog (F.fin (stepZZ S st i))))
        (stepNewLnprob S st i))
      (st.lnprob i)

/-- The fresh uniform vector drawn at line 369 for the acceptance test (one draw
per walker, after the `nwalkers` stretch draws). -/
def stepU2 (S : Sampler) (st : StepState) : ℕ → ℚ :=
  fun i => st.rng.useq (st.rng.uc + S.nwalkers + i)

/-- Line 369: `accept = (lnpdiff > np.log(self._random.rand(self.nwalkers)))`. -/
def stepAccept (S : Sampler) (st : StepState) : ℕ → Bool :=
  fun i => F.gt (stepLnpdiff S st i) (S.flog (F.fin (stepU2 S st i)))

/-- One iteration of the loop at lines 356-394 (in-memory branch): propose,
accept/reject per walker, record the post-accept/reject ensemble in the chain
slot `self._iterations`, append the lnprob column, bump counters, and advance
the generator (2·nwalkers uniform draws, nwalkers integer draws consumed). -/
def sampleStep (S : Sampler) (st : StepState) : Sampler × StepState :=
  let position' : ℕ → ℕ → ℚ :=
    fun i => if stepAccept S st i then stepNewPos S st i else st.position i
  let lnprob' : ℕ → F :=
    fun i => if stepAccept S st i then stepNewLnprob S st i else st.lnprob i
  let naccepted' : ℕ → ℕ :=
    fun i => if i < S.nwalkers ∧ stepAccept S st i = true
      then S.naccepted i + 1 else S.naccepted i
  let rng' : Rng :=
    { st.rng with
        uc := st.rng.uc + S.nwalkers + S.nwalkers
        ic := st.rng.ic + S.nwalkers }
  ({ S with
      chain := S.chain.set S.iterations position'
      lnprobability := S.lnprobability ++ [lnprob']
      iterations := S.iterations + 1
      naccepted := naccepted' },
   { st with position := position', lnprob := lnprob', rng := rng' })

/-- `k` iterations of the loop, also collecting the `yield`ed
`(position, lnprob, state)` tuples in order (each output is the `StepState`
right after its iteration; its `rng` is the `get_state()` snapshot). -/
def runSteps : ℕ → Sampler → StepState → Sampler × StepState × List StepState
  | 0, S, st => (S, st, [])
  | Nat.succ k, S, st =>
      let p := sampleStep S st
      let r := runSteps k p.1 p.2
      (r.1, r.2.1, p.2 :: r.2.2)

/-- Pure iteration of the step transition, used to state that the trajectory is
a deterministic function of the initial state. -/
def stepIter : ℕ → Sampler × StepState → Sampler × StepState
  | 0, p => p
  | Nat.succ k, p => stepIter k (sampleStep p.1 p.2)

/-- The entry prologue of `sample` (lines 322-353, in-memory branch): copy
`position0`, compute `lnprob` when absent, restore the generator state — falling
back to an entropy reseed when the supplied snapshot is unusable (`none` models
a malformed snapshot rejected by `set_state`) — and grow the chain arrays by
`iterations` zero slots. -/
def sampleInit (S : Sampler) (pos0 : ℕ → ℕ → ℚ) (lnprob0 : Option (ℕ → F))
    (rstate : Option Rng) (entropy : Rng) (T : ℕ) : Sampler × StepState :=
  let position : ℕ → ℕ → ℚ := pos0
  let lnprob : ℕ → F :=
    match lnprob0 with
    | some l => l
    | none => ensemble_lnposterior S position
  let rng : Rng :=
    match rstate with
    | some r => r
    | none => entropy
  ({ S with
      chain := S.chain ++ List.replicate T (fun _ _ => (0 : ℚ))
      lnprobability := S.lnprobability ++ List.replicate T (fun _ => F.fin 0) },
   { position0 := pos0, position := position, lnprob := lnprob, rng := rng })

/-- `EnsembleSampler.sample(position0, lnprob, randomstate, iterations=T)`,
in-memory branch, driven to exhaustion: returns the final sampler state, the
final local state, and the list of all `T` yielded tuples. -/
def sample (S : Sampler) (pos0 : ℕ → ℕ → ℚ) (lnprob0 : Option (ℕ → F))
    (rstate : Option Rng) (entropy : Rng) (T : ℕ) :
    Sampler × StepState × List StepState :=
  let p := sampleInit S pos0 lnprob0 rstate entropy T
  runSteps T p.1 p.2

/-- `EnsembleSampler.run_mcmc(position, randomstate, iterations, lnprob)`:
drives the `sample` iterator to completion and keeps only the final tuple. -/
def run_mcmc (S : Sampler) (pos0 : ℕ → ℕ → ℚ) (rstate : Option Rng)
    (entropy : Rng) (T : ℕ) (lnprob0 : Option (ℕ → F)) : Sampler × StepState :=
  let r := sample S pos0 lnprob0 rstate entropy T
  (r.1, r.2.1)

/-- `EnsembleSampler.get_chain()` (in-memory branch): returns `self._chain`. -/
def get_chain (S : Sampler) : List (ℕ → ℕ → ℚ) := S.chain

/-- `EnsembleSampler.get_lnprobability()` (in-memory branch): returns
`self._lnprobability`. -/
def get_lnprobability (S : Sampler) : List (ℕ → F) := S.lnprobability

/-- The all-zero chain snapshot, used as the `getD` default. -/
def zSnap : ℕ → ℕ → ℚ := fun _ _ => 0

/-! ### The `_clustering` rescue routine (lines 490-532) -/

/-- The Python error outcomes `_clustering` can produce in the embedding. -/
inductive PyErr where
  | typeError : PyErr
  | nameError : PyErr
  | outOfFuel : PyErr
deriving DecidableEq

/-- Models the calls `self._lnposteriorfn(position[k], self.postargs)` at lines
497 and 530.  `self._lnposteriorfn` is the one-parameter wrapper bound at line
129 (`lambda x: lnposteriorfn(x, *postargs)`; the multiprocessing wrapper of
line 47 also takes a single parameter), so calling it with two positional
arguments raises `TypeError` before the posterior function ever runs. -/
def callPosterior2 (_f : (ℕ → ℚ) → F) (_x : ℕ → ℚ) : Except PyErr F :=
  Except.error PyErr.typeError

/-- Stable insertion of `x` into `l`, ordered by `le`. -/
def insertBy {α : Type} (le : α → α → Bool) (x : α) : List α → List α
  | [] => [x]
  | y :: ys => if le x y then x :: y :: ys else y :: insertBy le x ys

/-- Stable sort by `le` (insertion sort). -/
def sortBy {α : Type} (le : α → α → Bool) (l : List α) : List α :=
  l.foldr (insertBy le) []

/-- Line 499: `inds = np.argsort(lnprob)[::-1]` — walker indices sorted by
descending log-posterior. -/
def argsortDesc (lnp : ℕ → F) (n : ℕ) : List ℕ :=
  (sortBy (fun i j => F.leB (lnp i) (lnp j)) (List.range n)).reverse

/-- Sum of a list of machine values. -/
def F.sumL (l : List F) : F := l.foldl F.add (F.fin 0)

/-- Division of a machine value by a list length; `np.mean` of an empty slice
is `NaN`. -/
def F.divN : F → ℕ → F
  | _, 0 => F.nan
  | F.fin q, Nat.succ n => F.fin (q / (Nat.succ n : ℚ))
  | F.pinf, Nat.succ _ => F.pinf
  | F.ninf, Nat.succ _ => F.ninf
  | F.nan, Nat.succ _ => F.nan

/-- `np.mean` of a vector of machine values. -/
def F.meanL (l : List F) : F := F.divN (F.sumL l) l.length

/-- Lines 501-506: the `for i, ind in enumerate(inds)` gap scan.  Walks the
enumeration indices; whenever `0 < i < len-1` it (re)assigns `big_mean` and
`small_mean` and breaks if the gap criterion holds at `i`.  Returns the final
value of the loop variable `i` and the last assigned `(big_mean, small_mean)`
(`none` when the guarded body never ran — in Python those names would then be
unbound, raising `NameError` at first later use). -/
def clusterScanLoop (lnp : ℕ → F) (inds : List ℕ) :
    List ℕ → Option (F × F) → ℕ × Option (F × F)
  | [], bs => (inds.length - 1, bs)
  | i :: rest, bs =>
      if 0 < i ∧ i < inds.length - 1 then
        let big := F.meanL ((inds.take i).map lnp)
        let small := F.meanL ((inds.drop (i + 1)).map lnp)
        let ind := inds.getD i 0
        if F.gt (F.sub big (lnp ind)) (F.sub (lnp ind) small) then (i, some (big, small))
        else clusterScanLoop lnp inds rest (some (big, small))
      else clusterScanLoop lnp inds rest bs

/-- The gap scan over all enumeration indices `0..len-1`. -/
def clusterScan (lnp : ℕ → F) (inds : List ℕ) : ℕ × Option (F × F) :=
  clusterScanLoop lnp inds (List.range inds.length) none

/-- `np.mean` of a list of rationals (good-walker positions are exact here). -/
def meanQ (l : List ℚ) : ℚ := l.foldl (· + ·) 0 / (l.length : ℚ)

/-- `np.var` with zero delta-degrees-of-freedom, as used by `np.std` before the
square root. -/
def varQ (l : List ℚ) : ℚ := meanQ (l.map (fun x => (x - meanQ l) ^ 2))

/-- Lines 527-530: the per-bad-walker `while` loop, with explicit fuel for the
unbounded recursion.  The loop keeps resampling `position[k] = mean + std*randn`
and re-evaluating `lnprob[k]` until the gap criterion fails; the re-evaluation
is the two-argument call modelled by `callPosterior2`. -/
def rescueLoop (S : Sampler) (big small : F) (mean std : ℕ → ℚ) (k : ℕ) :
    ℕ → (ℕ → ℕ → ℚ) → (ℕ → F) → Rng → Except PyErr ((ℕ → ℕ → ℚ) × (ℕ → F) × Rng)
  | 0, _, _, _ => Except.error PyErr.outOfFuel
  | Nat.succ fuel, pos, lnp, rng =>
      if F.gt (F.sub big (lnp k)) (F.sub (lnp k) small) then
        let g := (randnVec rng S.npars).1
        let rng' := (randnVec rng S.npars).2
        let row : ℕ → ℚ := fun d => mean d + std d * g d
        let pos' : ℕ → ℕ → ℚ := fun w => if w = k then row else pos w
        match callPosterior2 S.lnpostfn row with
        | Except.error e => Except.error e
        | Except.ok v =>
            rescueLoop S big small mean std k fuel pos'
              (fun w => if w = k then v else lnp w) rng'
      else Except.ok (pos, lnp, rng)

/-- The `for k in badwalkers` loop around `rescueLoop`. -/
def rescueAll (S : Sampler) (fuel : ℕ) (big small : F) (mean std : ℕ → ℚ) :
    List ℕ → (ℕ → ℕ → ℚ) → (ℕ → F) → Rng → Except PyErr ((ℕ → ℕ → ℚ) × (ℕ → F) × Rng)
  | [], pos, lnp, rng => Except.ok (pos, lnp, rng)
  | k :: rest, pos, lnp, rng =>
      match rescueLoop S big small mean std k fuel pos lnp rng with
      | Except.error e => Except.error e
      | Except.ok r => rescueAll S fuel big small mean std rest r.1 r.2.1 r.2.2

/-- `EnsembleSampler._clustering(position, lnprob, randomstate)`.  `fsqrt`
models `np.sqrt` (the standard deviation of the good walkers is generally
irrational); `fuel` bounds the unbounded `while` loops; `cur` is the generator
kept when `set_state` fails (`except: pass`).  A `lnprob` of `none` models
`lnprob == None`, whose recomputation at line 497 performs the same
two-argument call as line 530. -/
def clustering (S : Sampler) (fsqrt : ℚ → ℚ) (fuel : ℕ) (position : ℕ → ℕ → ℚ)
    (lnprob0 : Option (ℕ → F)) (rstate : Option Rng) (cur : Rng) :
    Except PyErr ((ℕ → ℕ → ℚ) × (ℕ → F) × Rng) :=
  match lnprob0 with
  | none => Except.error PyErr.typeError
  | some lnprob =>
      let inds := argsortDesc lnprob S.nwalkers
      let scan := clusterScan lnprob inds
      let goodwalkers := inds.take scan.1
      let badwalkers := inds.drop scan.1
      let rng : Rng :=
        match rstate with
        | some r => r
        | none => cur
      let mean : ℕ → ℚ := fun d => meanQ (goodwalkers.map (fun w => position w d))
      let std : ℕ → ℚ := fun d => fsqrt (varQ (goodwalkers.map (fun w => position w d)))
      match scan.2 with
      | none =>
          if badwalkers.isEmpty then Except.ok (position, lnprob, rng)
          else Except.error PyErr.nameError
      | some bs => rescueAll S fuel bs.1 bs.2 mean std badwalkers position lnprob rng

/-- A row has its pinned values: every dimension pinned by `inds`/`vals` holds
the pinned value. -/
def PinnedFn (inds : List ℕ) (vals : List ℚ) (e : ℕ → ℕ → ℚ) : Prop :=
  ∀ w d v, lastPinned (inds.zip vals) d = some v → e w d = v

/-! ### Helper lemmas -/

theorem writePairs_eq (ps : List (ℕ × ℚ)) (row : ℕ → ℚ) (d : ℕ) :
    writePairs ps row d = (lastPinned ps d).getD (row d) := by
  induction ps generalizing row with
  | nil => rfl
  | cons p rest ih =>
      obtain ⟨e, v⟩ := p
      rw [writePairs, ih, lastPinned]
      cases h : lastPinned rest d with
      | some w => simp
      | none =>
          by_cases hd : d = e <;> simp [hd]

theorem getD_set_self {α : Type} (l : List α) (n : ℕ) (a d : α)
    (h : n < l.length) : (l.set n a).getD n d = a := by
  induction l generalizing n with
  | nil => simp at h
  | cons x xs ih =>
      cases n with
      | zero => rfl
      | succ m =>
          simp only [List.set, List.getD, List.get?]
          exact ih m (by simpa using h)

theorem getD_set_ne {α : Type} (l : List α) (n m : ℕ) (a d : α)
    (h : m ≠ n) : (l.set n a).getD m d = l.getD m d := by
  induction l generalizing n m with
  | nil => rfl
  | cons x xs ih =>
      cases n with
      | zero =>
          cases m with
          | zero => exact absurd rfl h
          | succ j => rfl
      | succ k =>
          cases m with
          | zero => rfl
          | succ j =>
              simp only [List.set, List.getD, List.get?]
              exact ih k j (fun hc => h (by rw [hc]))

theorem getD_append_left {α : Type} (l l' : List α) (n : ℕ) (d : α)
    (h : n < l.length) : (l ++ l').getD n d = l.getD n d := by
  induction l generalizing n with
  | nil => simp at h
  | cons x xs ih =>
      cases n with
      | zero => rfl
      | succ m =>
          simp only [List.cons_append, List.getD, List.get?]
          exact ih m (by simpa using h)

theorem sampleStep_fst_iterations (S : Sampler) (st : StepState) :
    (sampleStep S st).1.iterations = S.iterations + 1 := rfl

theorem sampleStep_fst_fixedinds (S : Sampler) (st : StepState) :
    (sampleStep S st).1.fixedinds = S.fixedinds := rfl

theorem sampleStep_fst_fixedvals (S : Sampler) (st : StepState) :
    (sampleStep S st).1.fixedvals = S.fixedvals := rfl

theorem sampleStep_fst_chain (S : Sampler) (st : StepState) :
    (sampleStep S st).1.chain = S.chain.set S.iterations (sampleStep S st).2.position := rfl

theorem sampleStep_snd_position (S : Sampler) (st : StepState) (i : ℕ) :
    (sampleStep S st).2.position i =
      if stepAccept S st i then stepNewPos S st i else st.position i := rfl

theorem sampleStep_snd_position0 (S : Sampler) (st : StepState) :
    (sampleStep S st).2.position0 = st.position0 := rfl

theorem runSteps_fst_iterations (k : ℕ) :
    ∀ (S : Sampler) (st : StepState),
      (runSteps k S st).1.iterations = S.iterations + k := by
  induction k with
  | zero => intro S st; rfl
  | succ n ih =>
      intro S st
      show (runSteps n (sampleStep S st).1 (sampleStep S st).2).1.iterations = _
      rw [ih, sampleStep_fst_iterations]
      omega

theorem runSteps_fst_chain_length (k : ℕ) :
    ∀ (S : Sampler) (st : StepState),
      (runSteps k S st).1.chain.length = S.chain.length := by
  induction k with
  | zero => intro S st; rfl
  | succ n ih =>
      intro S st
      show (runSteps n (sampleStep S st).1 (sampleStep S st).2).1.chain.length = _
      rw [ih, sampleStep_fst_chain, List.length_set]

theorem runSteps_outs_length (k : ℕ) :
    ∀ (S : Sampler) (st : StepState), (runSteps k S st).2.2.length = k := by
  induction k with
  | zero => intro S st; rfl
  | succ n ih =>
      intro S st
      show ((sampleStep S st).2 :: (runSteps n (sampleStep S st).1 (sampleStep S st).2).2.2).length = _
      rw [List.length_cons, ih]

theorem runSteps_snd_position0 (k : ℕ) :
    ∀ (S : Sampler) (st : StepState),
      (runSteps k S st).2.1.position0 = st.position0 := by
  induction k with
  | zero => intro S st; rfl
  | succ n ih =>
      intro S st
      show (runSteps n (sampleStep S st).1 (sampleStep S st).2).2.1.position0 = _
      rw [ih, sampleStep_snd_position0]

theorem runSteps_get (T : ℕ) :
    ∀ (k : ℕ) (S : Sampler) (st : StepState), k < T →
      (runSteps T S st).2.2.get? k = some ((stepIter (k + 1) (S, st)).2) := by
  induction T with
  | zero => intro k S st hk; omega
  | succ n ih =>
      intro k S st hk
      cases k with
      | zero => rfl
      | succ j =>
          show (runSteps n (sampleStep S st).1 (sampleStep S st).2).2.2.get? j = _
          exact ih j (sampleStep S st).1 (sampleStep S st).2 (by omega)

theorem stepNewPos_pinned (S : Sampler) (st : StepState) (i d : ℕ) (v : ℚ)
    (h : lastPinned (S.fixedinds.zip S.fixedvals) d = some v) :
    stepNewPos S st i d = v := by
  show writePairs (S.fixedinds.zip S.fixedvals) (stepRawProp S st i) d = v
  rw [writePairs_eq, h]
  rfl

theorem sampleStep_position_pinned (S : Sampler) (st : StepState)
    (h : PinnedFn S.fixedinds S.fixedvals st.position) :
    PinnedFn S.fixedinds S.fixedvals (sampleStep S st).2.position := by
  intro w d v hv
  rw [sampleStep_snd_position]
  by_cases hacc : stepAccept S st w
  · rw [if_pos hacc]
    exact stepNewPos_pinned S st w d v hv
  · rw [if_neg hacc]
    exact h w d v hv

theorem runSteps_chain_pinned (k : ℕ) :
    ∀ (S : Sampler) (st : StepState),
      PinnedFn S.fixedinds S.fixedvals st.position →
      S.iterations + k ≤ S.chain.length →
      (∀ t, t < S.iterations → PinnedFn S.fixedinds S.fixedvals (S.chain.getD t zSnap)) →
      ∀ t, t < (runSteps k S st).1.iterations →
        PinnedFn S.fixedinds S.fixedvals ((runSteps k S st).1.chain.getD t zSnap) := by
  induction k with
  | zero => intro S st _ _ hold t ht; exact hold t ht
  | succ n ih =>
      intro S st hpos hlen hold t ht
      show PinnedFn S.fixedinds S.fixedvals
        ((runSteps n (sampleStep S st).1 (sampleStep S st).2).1.chain.getD t zSnap)
      have hstep : ∀ t', t' < (sampleStep S st).1.iterations →
          PinnedFn S.fixedinds S.fixedvals ((sampleStep S st).1.chain.getD t' zSnap) := by
        intro t' ht'
        rw [sampleStep_fst_iterations] at ht'
        rw [sampleStep_fst_chain]
        by_cases he : t' = S.iterations
        · subst he
          rw [getD_set_self _ _ _ _ (by omega)]
          exact sampleStep_position_pinned S st hpos
        · rw [getD_set_ne _ _ _ _ _ he]
          exact hold t' (by omega)
      have := ih (sampleStep S st).1 (sampleStep S st).2
        (sampleStep_position_pinned S st hpos)
        (by rw [sampleStep_fst_chain, List.length_set, sampleStep_fst_iterations]; omega)
        hstep t
        (by
          have h1 : (runSteps (n + 1) S st).1.iterations =
              (runSteps n (sampleStep S st).1 (sampleStep S st).2).1.iterations := rfl
          rw [h1] at ht
          exact ht)
      simpa [sampleStep_fst_fixedinds, sampleStep_fst_fixedvals] using this

theorem gt_after_ninf (c lnp u : F) :
    F.gt (F.sub (F.add c F.ninf) lnp) u = false := by
  cases c <;> cases lnp <;> cases u <;> rfl

theorem lastPinned_single (e : ℕ) (x : ℚ) (d : ℕ) :
    lastPinned [(e, x)] d = if d = e then some x else none := rfl

/-! ### Concrete instances used by evaluations, counterexamples and witnesses -/

/-- A concrete generator state: every uniform draw is `0`, every integer draw is
`0`, every normal draw is `0`, all cursors at `0`. -/
def rng0 : Rng := ⟨fun _ => 0, fun _ => 0, fun _ => 0, 0, 0, 0⟩

/-- A second, different concrete generator state (used as alternative ambient
entropy in the reproducibility witness). -/
def rngB : Rng := ⟨fun _ => 1 / 2, fun _ => 1, fun _ => 1, 0, 0, 0⟩

/-- Concrete sampler: 2 walkers, 1 parameter, constant posterior `5`, `a = 2`. -/
def S1 : Sampler := mkSampler 2 1 (fun _ => F.fin 5) 2 logLike

/-- The sampler state after one in-memory iteration of `S1`. -/
def R1 : Sampler := (sample S1 zSnap none (some rng0) rng0 1).1

/-- Concrete sampler whose posterior is identically `-inf`, `a = 2`. -/
def S3 : Sampler := mkSampler 2 1 (fun _ => F.ninf) 2 logLike

/-- Local state with current log-posterior `-inf` for every walker. -/
def st3 : StepState :=
  { position0 := zSnap, position := zSnap, lnprob := fun _ => F.ninf, rng := rng0 }

/-- Local state with finite current log-posterior `0` for every walker. -/
def st3w : StepState :=
  { position0 := zSnap, position := zSnap, lnprob := fun _ => F.fin 0, rng := rng0 }

/-- Sampler with dimension 0 pinned to `0` via `fix_parameters`, posterior
identically `-inf` (so every proposal is rejected). -/
def S6 : Sampler := fix_parameters (mkSampler 2 1 (fun _ => F.ninf) 2 logLike) [0] [0]

/-- Run of `S6` for one iteration from initial positions all `5` (not the
pinned value) with finite initial log-posteriors. -/
def R6 : Sampler :=
  (sample S6 (fun _ _ => 5) (some (fun _ => F.fin 0)) (some rng0) rng0 1).1

/-- Sampler with dimension 0 pinned to `7`, constant posterior `0`. -/
def S6w : Sampler := fix_parameters (mkSampler 2 1 (fun _ => F.fin 0) 2 logLike) [0] [7]

/-- Run of `S6w` for one iteration from initial positions all `7` (the pinned
value). -/
def R6w : Sampler := (sample S6w (fun _ _ => 7) none (some rng0) rng0 1).1

/-- 4-walker, 1-parameter sampler for the clustering scenario. -/
def S9 : Sampler := mkSampler 4 1 (fun _ => F.fin 0) 2 logLike

/-- Log-posteriors with one extreme outlier: `3, 2, 1, -1000000`. -/
def lnp9 : ℕ → F := fun w =>
  if w = 0 then F.fin 3
  else if w = 1 then F.fin 2
  else if w = 2 then F.fin 1
  else F.fin (-1000000)

/-- Walker positions for the clustering scenario. -/
def pos9 : ℕ → ℕ → ℚ := fun w _ => (w : ℚ)

/-! ### Claim theorems -/

/-- C2: in every step, walker `i` is accepted exactly when
`(neff - 1) * ln(z_i) + logpost'_i - logpost_i > ln(U2_i)`, with `U2_i` one
fresh uniform draw per walker (the draws at stream offsets `uc + nwalkers + i`,
disjoint from the stretch draws); an accepted walker takes the proposal and a
rejected one keeps its position; and `neff` is `npars` minus the number of
fixed parameters set by `fix_parameters` (equal to `npars` when none are
fixed). -/
theorem c2_acceptance_rule (S : Sampler) (st : StepState) (i : ℕ) :
    stepAccept S st i =
      F.gt (F.sub (F.add (F.mulQ (S.neff - 1) (S.flog (F.fin (stepZZ S st i))))
            (stepNewLnprob S st i)) (st.lnprob i))
        (S.flog (F.fin (st.rng.useq (st.rng.uc + S.nwalkers + i)))) ∧
    (sampleStep S st).2.position i =
      (if stepAccept S st i then stepNewPos S st i else st.position i) ∧
    (∀ (S0 : Sampler) (inds : List ℕ) (vals : List ℚ),
      (fix_parameters S0 inds vals).neff = (S0.npars : ℚ) - (inds.length : ℚ)) ∧
    (∀ (nw npv : ℕ) (f : (ℕ → ℚ) → F) (av : ℚ) (lg : F → F),
      (mkSampler nw npv f av lg).neff = (npv : ℚ)) :=
  ⟨rfl, rfl, fun _ _ _ => rfl, fun _ _ _ _ _ => rfl⟩

/-- C4: the partner map `r ↦ r + 1` if `r ≥ i` else `r` (which is exactly how
the step computes `rint`) never returns `i`, stays below `nwalkers`, and is a
bijection from `{0..nwalkers-2}` onto `{0..nwalkers-1} \ {i}`, so the partner
is uniform over the other `nwalkers - 1` walkers. -/
theorem c4_partner_bijection (n i : ℕ) (hi : i < n) :
    (∀ (S : Sampler) (st : StepState),
      stepRint S st i = partnerIdx i (stepRdraw S st i)) ∧
    (∀ r, r < n - 1 → partnerIdx i r ≠ i ∧ partnerIdx i r < n) ∧
    (∀ r r', r < n - 1 → r' < n - 1 → partnerIdx i r = partnerIdx i r' → r = r') ∧
    (∀ j, j < n → j ≠ i → ∃ r, r < n - 1 ∧ partnerIdx i r = j) := by
  refine ⟨fun S st => rfl, ?_, ?_, ?_⟩
  · intro r hr
    by_cases h : i ≤ r
    · simp only [partnerIdx, if_pos h]
      omega
    · simp only [partnerIdx, if_neg h]
      omega
  · intro r r' hr hr' h
    simp only [partnerIdx] at h
    split at h <;> split at h <;> omega
  · intro j hj hne
    by_cases hij : j < i
    · refine ⟨j, by omega, ?_⟩
      simp only [partnerIdx, if_neg (by omega : ¬ i ≤ j)]
    · refine ⟨j - 1, by omega, ?_⟩
      simp only [partnerIdx, if_pos (by omega : i ≤ j - 1)]
      omega

/-- Witness for C4 at a concrete input: with 3 walkers and walker `i = 1`,
the draw `r = 1` maps to partner `2 ≠ 1` within range. -/
theorem c4_witness : 1 < 3 ∧ (partnerIdx 1 1 ≠ 1 ∧ partnerIdx 1 1 < 3) :=
  ⟨by decide, (c4_partner_bijection 3 1 (by decide)).2.1 1 (by decide)⟩

/-- C5: the stretch factor is `z_i = ((a-1)·U + 1)² / a` with `U` the fresh
uniform draw for walker `i`; the raw proposal is
`position_j + z_i · (position_i − position_j)` computed from the pre-step
ensemble; and the stored proposal overwrites exactly the pinned dimensions of
that raw proposal with their pinned values (the last write wins, as in numpy
fancy assignment), after the stretch is computed. -/
theorem c5_stretch_move (S : Sampler) (st : StepState) (i d : ℕ) :
    stepZZ S st i = ((S.a - 1) * st.rng.useq (st.rng.uc + i) + 1) ^ 2 / S.a ∧
    stepRawProp S st i d =
      st.position (stepRint S st i) d +
        stepZZ S st i * (st.position i d - st.position (stepRint S st i) d) ∧
    stepNewPos S st i d =
      (lastPinned (S.fixedinds.zip S.fixedvals) d).getD (stepRawProp S st i d) :=
  ⟨rfl, rfl, writePairs_eq _ _ _⟩

/-- C3 (amended): a walker whose proposed log-posterior is `-inf` is always
rejected; when its current log-posterior is finite — and the machine log is
finite on positive inputs and never NaN on non-negative inputs, `a ≥ 1` and the
uniform draws are non-negative — the acceptance comparison involves no NaN
(`lnpdiff` is `-inf` and `log U2` is not NaN).  When the current log-posterior
is itself `-inf` the difference is NaN (see the counterexample), though the
comparison still rejects. -/
theorem c3_neg_inf_rejected (S : Sampler) (st : StepState) (i : ℕ)
    (hne : stepNewLnprob S st i = F.ninf) :
    stepAccept S st i = false ∧
    (∀ p : ℚ, st.lnprob i = F.fin p → 1 ≤ S.a → (∀ j, 0 ≤ st.rng.useq j) →
      (∀ q : ℚ, 0 < q → ∃ x : ℚ, S.flog (F.fin q) = F.fin x) →
      (∀ q : ℚ, 0 ≤ q → S.flog (F.fin q) ≠ F.nan) →
      stepLnpdiff S st i = F.ninf ∧ S.flog (F.fin (stepU2 S st i)) ≠ F.nan) := by
  constructor
  · show F.gt (F.sub (F.add (F.mulQ (S.neff - 1) (S.flog (F.fin (stepZZ S st i))))
        (stepNewLnprob S st i)) (st.lnprob i))
      (S.flog (F.fin (stepU2 S st i))) = false
    rw [hne]
    exact gt_after_ninf _ _ _
  · intro p hp ha hu hfin hnn
    have hb : (0 : ℚ) < (S.a - 1) * stepU1 st i + 1 := by
      have h1 : (0 : ℚ) ≤ (S.a - 1) * stepU1 st i :=
        mul_nonneg (by linarith) (hu _)
      linarith
    have hzz : 0 < stepZZ S st i := by
      have ha0 : (0 : ℚ) < S.a := by linarith
      show 0 < ((S.a - 1) * stepU1 st i + 1) ^ 2 / S.a
      exact div_pos (pow_pos hb 2) ha0
    obtain ⟨x, hx⟩ := hfin _ hzz
    constructor
    · show F.sub (F.add (F.mulQ (S.neff - 1) (S.flog (F.fin (stepZZ S st i))))
          (stepNewLnprob S st i)) (st.lnprob i) = F.ninf
      rw [hne, hx, hp]
      rfl
    · exact hnn _ (hu _)

/-- C3 (counterexample): with the constant `-inf` posterior and current
log-posterior `-inf`, the proposed log-posterior is `-inf` yet the quantity
compared in the acceptance test is NaN — refuting "the acceptance comparison
never involves a not-a-number value ... including when the walker's current
log-posterior is itself `-inf`".  The walker is still rejected. -/
theorem c3_nan_counterexample :
    stepNewLnprob S3 st3 0 = F.ninf ∧ stepLnpdiff S3 st3 0 = F.nan ∧
    stepAccept S3 st3 0 = false :=
  ⟨by with_unfolding_all rfl, by with_unfolding_all rfl, by with_unfolding_all rfl⟩

/-- Witness for the amended C3 theorem at a concrete input. -/
theorem c3_witness :
    stepAccept S3 st3w 0 = false ∧ stepLnpdiff S3 st3w 0 = F.ninf := by
  have h := c3_neg_inf_rejected S3 st3w 0 (by with_unfolding_all rfl)
  refine ⟨h.1, (h.2 0 rfl (by norm_num [S3, mkSampler]) (fun j => le_refl 0) ?_ ?_).1⟩
  · intro q hq
    exact ⟨0, by simp [S3, mkSampler, logLike, hq]⟩
  · intro q hq
    by_cases h0 : 0 < q
    · simp [S3, mkSampler, logLike, h0]
    · have hq0 : q = 0 := le_antisymm (not_lt.1 h0) hq
      subst hq0
      simp [S3, mkSampler, logLike]

/-- C1 (evaluation of the defect): with in-memory storage, after a single
iteration (`T = 1`) of a 2-walker sampler whose posterior is constantly `5`,
the iteration counter is `1` and `get_chain()` has the claimed single entry —
but `get_lnprobability()` has `2` columns, not `1`: column `0` is the
pre-allocated zero column (line 352) and the actual log-posteriors of
iteration `0` sit in the appended column `1` (line 386), contradicting the
claimed `(nwalkers, T)` layout with column `t` holding iteration `t`'s
log-posteriors (and `get_lnprobability`'s own docstring). -/
theorem c1_lnprobability_shape :
    R1.iterations = 1 ∧
    (get_chain R1).length = 1 ∧
    (get_lnprobability R1).length = 2 ∧
    ((get_lnprobability R1).get? 0).map (fun c => c 0) = some (F.fin 0) ∧
    ((get_lnprobability R1).get? 1).map (fun c => c 0) = some (F.fin 5) :=
  ⟨by with_unfolding_all rfl, by with_unfolding_all rfl, by with_unfolding_all rfl,
   by with_unfolding_all rfl, by with_unfolding_all rfl⟩

/-- C6 (counterexample): after `fix_parameters([0], [0])`, running one
iteration from initial positions whose dimension `0` is `5` with a
constant-`-inf` posterior (so the proposal is rejected), the recorded chain
entry holds `5` at the fixed dimension, not the pinned value `0` — refuting
"the stored position value at dimension d equals the pinned value ...
including iterations at which that walker's proposal was rejected". -/
theorem c6_counterexample :
    lastPinned (S6.fixedinds.zip S6.fixedvals) 0 = some 0 ∧
    (R6.chain.getD 0 zSnap) 0 0 = 5 ∧ (5 : ℚ) ≠ 0 :=
  ⟨by with_unfolding_all rfl, by with_unfolding_all rfl, by norm_num⟩

/-- C6 (amended): after `fix_parameters(inds, vals)`, provided every walker's
initial position already carries the pinned values at the fixed dimensions
(and any previously recorded chain entries do too), every chain entry recorded
by subsequent sampling holds the pinned value at every fixed dimension for
every walker — accepted or rejected alike. -/
theorem c6_pinned_amended (S0 : Sampler) (inds : List ℕ) (vals : List ℚ)
    (pos0 : ℕ → ℕ → ℚ) (lnprob0 : Option (ℕ → F)) (rstate : Option Rng)
    (entropy : Rng) (T : ℕ)
    (hpos0 : PinnedFn inds vals pos0)
    (hprev : ∀ t, t < S0.iterations → PinnedFn inds vals (S0.chain.getD t zSnap))
    (hlen : S0.iterations ≤ S0.chain.length) :
    ∀ t, t < (sample (fix_parameters S0 inds vals) pos0 lnprob0 rstate entropy T).1.iterations →
      ∀ w d v, lastPinned (inds.zip vals) d = some v →
        ((sample (fix_parameters S0 inds vals) pos0 lnprob0 rstate entropy T).1.chain.getD
          t zSnap) w d = v := by
  have key := runSteps_chain_pinned T
      (sampleInit (fix_parameters S0 inds vals) pos0 lnprob0 rstate entropy T).1
      (sampleInit (fix_parameters S0 inds vals) pos0 lnprob0 rstate entropy T).2
      (by exact hpos0)
      (by
        show S0.iterations + T ≤ (S0.chain ++ List.replicate T zSnap).length
        rw [List.length_append, List.length_replicate]
        omega)
      (by
        intro t' ht'
        show PinnedFn inds vals ((S0.chain ++ List.replicate T zSnap).getD t' zSnap)
        rw [getD_append_left _ _ _ _ (lt_of_lt_of_le ht' hlen)]
        exact hprev t' ht')
  intro t ht w d v hv
  exact key t ht w d v hv

/-- Witness for the amended C6 theorem: starting pinned (dimension `0` fixed to
`7`, all initial positions `7`), the recorded entry holds the pinned value. -/
theorem c6_witness : (R6w.chain.getD 0 zSnap) 0 0 = 7 := by
  have h := c6_pinned_amended (mkSampler 2 1 (fun _ => F.fin 0) 2 logLike) [0] [7]
      (fun _ _ => 7) none (some rng0) rng0 1
      (by
        intro w d v hv
        have hv' : lastPinned [((0 : ℕ), (7 : ℚ))] d = some v := hv
        rw [lastPinned_single] at hv'
        split at hv'
        · exact Option.some.inj hv'
        · exact absurd hv' (by simp))
      (by
        intro t ht
        simp only [mkSampler] at ht
        omega)
      (by exact Nat.le.refl)
      0 (by with_unfolding_all decide) 0 0 7 (by with_unfolding_all rfl)
  exact h

/-- C7: with a valid supplied generator state, the trajectory is a
deterministic function of the explicit inputs — two runs that differ only in
the ambient entropy source produce identical outputs (no hidden entropy is
consumed), and the tuple yielded at iteration `k` is exactly the `(k+1)`-fold
iterate of the pure step transition from the initial state, so repeated runs
reproduce identical sequences of positions, log-posteriors and generator
snapshots. -/
theorem c7_reproducible (S : Sampler) (pos0 : ℕ → ℕ → ℚ) (lnprob0 : Option (ℕ → F))
    (r entropy1 entropy2 : Rng) (T k : ℕ) (hk : k < T) :
    sample S pos0 lnprob0 (some r) entropy1 T = sample S pos0 lnprob0 (some r) entropy2 T ∧
    (sample S pos0 lnprob0 (some r) entropy1 T).2.2.get? k =
      some ((stepIter (k + 1) (sampleInit S pos0 lnprob0 (some r) entropy1 T)).2) := by
  constructor
  · rfl
  · exact runSteps_get T k _ _ hk

/-- Witness for C7 at a concrete input (two different entropy sources). -/
theorem c7_witness :
    0 < 1 ∧
    (sample S1 zSnap none (some rng0) rng0 1 = sample S1 zSnap none (some rng0) rngB 1 ∧
     (sample S1 zSnap none (some rng0) rng0 1).2.2.get? 0 =
       some ((stepIter 1 (sampleInit S1 zSnap none (some rng0) rng0 1)).2)) :=
  ⟨by decide, c7_reproducible S1 zSnap none rng0 rng0 rngB 1 0 (by decide)⟩

/-- C8: a malformed `randomstate` (modelled by `none`, which `set_state`
rejects) is never fatal: `sample` reseeds from entropy and behaves exactly as
if that entropy state had been supplied, and the run still records the full
requested number of iterations (iteration counter and chain grow by `T`, and
`T` tuples are yielded). -/
theorem c8_malformed_randomstate (S : Sampler) (pos0 : ℕ → ℕ → ℚ)
    (lnprob0 : Option (ℕ → F)) (entropy : Rng) (T : ℕ) :
    sample S pos0 lnprob0 none entropy T = sample S pos0 lnprob0 (some entropy) entropy T ∧
    (sample S pos0 lnprob0 none entropy T).1.iterations = S.iterations + T ∧
    (sample S pos0 lnprob0 none entropy T).1.chain.length = S.chain.length + T ∧
    (sample S pos0 lnprob0 none entropy T).2.2.length = T := by
  refine ⟨rfl, ?_, ?_, ?_⟩
  · show (runSteps T (sampleInit S pos0 lnprob0 none entropy T).1
      (sampleInit S pos0 lnprob0 none entropy T).2).1.iterations = S.iterations + T
    rw [runSteps_fst_iterations]
    rfl
  · show (runSteps T (sampleInit S pos0 lnprob0 none entropy T).1
      (sampleInit S pos0 lnprob0 none entropy T).2).1.chain.length = S.chain.length + T
    rw [runSteps_fst_chain_length]
    show (S.chain ++ List.replicate T zSnap).length = S.chain.length + T
    rw [List.length_append, List.length_replicate]
  · show (runSteps T (sampleInit S pos0 lnprob0 none entropy T).1
      (sampleInit S pos0 lnprob0 none entropy T).2).2.2.length = T
    rw [runSteps_outs_length]

/-- C9 (evaluation of the defect): on the claimed scenario — a 4-walker
ensemble whose log-posteriors are `3, 2, 1, -1000000`, one walker far below
the rest — the clustering rescue enters the resampling loop for the outlier
and immediately performs the two-argument call of the one-argument posterior
wrapper (line 530 vs line 129), raising `TypeError` instead of terminating
with a rescued ensemble. -/
theorem c9_clustering_typeerror :
    clustering S9 (fun q => q) 5 pos9 (some lnp9) none rng0 =
      Except.error PyErr.typeError := by
  with_unfolding_all rfl

/-- C10: `sample` (and `run_mcmc`, which drives it) never mutates the caller's
`position0` object: line 323 copies it into the local `position` array, every
per-step write targets that local array, and the caller's array is unchanged
after any number of iterations. -/
theorem c10_position0_frame (S : Sampler) (pos0 : ℕ → ℕ → ℚ)
    (lnprob0 : Option (ℕ → F)) (rstate : Option Rng) (entropy : Rng) (T : ℕ) :
    (sample S pos0 lnprob0 rstate entropy T).2.1.position0 = pos0 ∧
    (run_mcmc S pos0 rstate entropy T lnprob0).2.position0 = pos0 ∧
    (∀ st : StepState, (sampleStep S st).2.position0 = st.position0) ∧
    (sampleInit S pos0 lnprob0 rstate entropy T).2.position = pos0 := by
  refine ⟨?_, ?_, fun st => rfl, rfl⟩
  · show (runSteps T (sampleInit S pos0 lnprob0 rstate entropy T).1
      (sampleInit S pos0 lnprob0 rstate entropy T).2).2.1.position0 = pos0
    rw [runSteps_snd_position0]
    rfl
  · show (runSteps T (sampleInit S pos0 lnprob0 rstate entropy T).1
      (sampleInit S pos0 lnprob0 rstate entropy T).2).2.1.position0 = pos0
    rw [runSteps_snd_position0]
    rfl

end Markovpy
